import Mathlib

/-!
# Verification of the korifi service-broker catalog reconciler

A shallow embedding of
`controllers/controllers/services/brokers/controller.go` (package
`brokers`): the `ReconcileResource` control loop, credential validation,
catalog reconciliation (`reconcileCatalog`, `reconcileCatalogService`,
`reconcileCatalogPlan`, `toSpecServiceOffering`) and the secret-to-broker
watch mapping (`secretToServiceBroker`).

Go maps with string keys are modelled as association lists; the Kubernetes
object store is modelled as one association list per object kind, keyed by
object name (all objects of interest live in the broker's namespace).
External collaborators (the Kubernetes client and the OSBAPI catalog
client) are modelled by explicit inputs: the outcome of the secret fetch,
the outcome of the catalog fetch, and a per-key write-failure injection for
upserts.  Go's three-way outcome (value / error / panic) is modelled by
`GoRes`.
-/

set_option autoImplicit false

namespace BrokerReconcile

/-- A decoded JSON value, as produced by Go's `encoding/json` when
decoding into `any` / `map[string]any` (numbers are modelled as `Int`;
their exact numeric type is irrelevant to the reconciler). -/
inductive JsonVal where
  | str (s : String)
  | num (n : Int)
  | bool (b : Bool)
  | null
  | arr (elems : List JsonVal)
  | obj (fields : List (String × JsonVal))

/-- Association-list lookup, first match wins (Go map indexing). -/
def alookup {α : Type} : List (String × α) → String → Option α
  | [], _ => none
  | (k', v') :: rest, k => if k' = k then some v' else alookup rest k

/-- Association-list update: replace the first binding of the key in
place, or append a fresh binding (Go map assignment). -/
def aset {α : Type} : List (String × α) → String → α → List (String × α)
  | [], k, v => [(k, v)]
  | (k', v') :: rest, k, v =>
      if k' = k then (k, v) :: rest else (k', v') :: aset rest k v

/-- Lookup with a default, modelling Go's zero value on a missing map
key (`m[k]` for a `map[string]string`). -/
def alookupD (l : List (String × String)) (k : String) : String :=
  (alookup l k).getD ""

@[simp]
theorem alookup_aset_self {α : Type} (l : List (String × α)) (k : String) (v : α) :
    alookup (aset l k v) k = some v := by
  induction l with
  | nil => simp [aset, alookup]
  | cons hd tl ih =>
    obtain ⟨k', v'⟩ := hd
    by_cases h : k' = k <;> simp [aset, alookup, h, ih]

theorem alookup_aset_other {α : Type} (l : List (String × α)) (k k' : String) (v : α)
    (h : k' ≠ k) : alookup (aset l k v) k' = alookup l k' := by
  induction l with
  | nil => simp [aset, alookup, Ne.symm h]
  | cons hd tl ih =>
    obtain ⟨k₀, v₀⟩ := hd
    by_cases h₀ : k₀ = k
    · subst h₀
      simp [aset, alookup, Ne.symm h, h]
    · by_cases h₁ : k₀ = k'
      · subst h₁
        simp [aset, alookup, h₀, h]
      · simp [aset, alookup, h₀, h₁, ih]

theorem aset_self_of_alookup {α : Type} (l : List (String × α)) (k : String) (v : α)
    (h : alookup l k = some v) : aset l k v = l := by
  induction l with
  | nil => simp [alookup] at h
  | cons hd tl ih =>
    obtain ⟨k', v'⟩ := hd
    by_cases h' : k' = k
    · subst h'
      simp [alookup] at h
      simp [aset, h]
    · simp [alookup, h'] at h
      simp [aset, h', ih h]

theorem aset_aset_self {α : Type} (l : List (String × α)) (k : String) (v w : α) :
    aset (aset l k v) k w = aset l k w := by
  induction l with
  | nil => simp [aset]
  | cons hd tl ih =>
    obtain ⟨k', v'⟩ := hd
    by_cases h : k' = k <;> simp [aset, h, ih]

/-- Go string quoting as used by `%q` and by the JSON encoder (escape
sequences inside the string are not modelled; no claim depends on them). -/
def goQuote (s : String) : String := "\"" ++ s ++ "\""

mutual

/-- Deterministic serialization of a JSON value, modelling
`encoding/json.Marshal` on values decoded from JSON.  On such values Go's
encoder cannot fail, so the function is total; the exact byte layout
(e.g. the encoder's key ordering) is irrelevant to every claim, only
determinism is used. -/
def jsonMarshal : JsonVal → String
  | .str s => goQuote s
  | .num n => toString n
  | .bool b => if b then "true" else "false"
  | .null => "null"
  | .arr es => "[" ++ jsonMarshalElems es ++ "]"
  | .obj fs => "\x7b" ++ jsonMarshalFields fs ++ "\x7d"

/-- Comma-separated serialization of JSON array elements. -/
def jsonMarshalElems : List JsonVal → String
  | [] => ""
  | [v] => jsonMarshal v
  | v :: vs => jsonMarshal v ++ "," ++ jsonMarshalElems vs

/-- Comma-separated serialization of JSON object fields. -/
def jsonMarshalFields : List (String × JsonVal) → String
  | [] => ""
  | [(k, v)] => goQuote k ++ ":" ++ jsonMarshal v
  | (k, v) :: fs => goQuote k ++ ":" ++ jsonMarshal v ++ "," ++ jsonMarshalFields fs

end

/-- Serialization of a Go `map[string]any` value that may be `nil`
(`json.Marshal` renders a nil map as `null`). -/
def marshalMetadata : Option (List (String × JsonVal)) → String
  | none => "null"
  | some md => jsonMarshal (.obj md)

/-! ## Constants

The `korifiv1alpha1` constants and `tools.NamespacedUUID` are referenced
by the controller but their defining packages are not part of the source
tree, so they are modelled from the spec. -/

/-- Modelled from the spec: `korifiv1alpha1.CredentialsSecretKey` is not in
the source tree; spec section 6 says the secret payload has "a credentials
key holding a JSON object". -/
def credentialsSecretKey : String := "credentials"

/-- Modelled from the spec: `korifiv1alpha1.UsernameCredentialsKey` is not
in the source tree; spec section 6 requires "a username-equivalent" field. -/
def usernameCredentialsKey : String := "username"

/-- Modelled from the spec: `korifiv1alpha1.PasswordCredentialsKey` is not
in the source tree; spec section 6 requires "a password-equivalent" field. -/
def passwordCredentialsKey : String := "password"

/-- Modelled from the spec: `korifiv1alpha1.RelServiceBrokerLabel` is not in
the source tree; spec section 3 describes "a back-reference label to its
owning broker".  Only its distinctness from the offering label matters. -/
def relServiceBrokerLabel : String := "korifi.cloudfoundry.org/rel-service-broker"

/-- Modelled from the spec: `korifiv1alpha1.RelServiceOfferingLabel` is not
in the source tree; spec section 3 describes back-reference labels "to both
owning broker and owning offering". -/
def relServiceOfferingLabel : String := "korifi.cloudfoundry.org/rel-service-offering"

/-- Modelled from the spec: `tools.NamespacedUUID` is not in the source
tree; spec sections 3 and 9 require "a pure, deterministic
hash/concatenation of (parent identity, upstream catalog ID)" — "an
explicit deterministic encoding (e.g., stable hash or namespaced UUID)". -/
def NamespacedUUID (segments : List String) : String :=
  String.intercalate "::" segments

/-! ## Catalog document (collaborator input, spec section 6) -/

/-- An input-parameter schema: an opaque raw JSON blob or absent
(`runtime.RawExtension.Raw`). -/
structure InputParameterSchema where
  Parameters : Option String
deriving DecidableEq

/-- Schemas for service-instance create/update. -/
structure ServiceInstanceSchema where
  Create : InputParameterSchema
  Update : InputParameterSchema
deriving DecidableEq

/-- Schemas for service-binding create. -/
structure ServiceBindingSchema where
  Create : InputParameterSchema
deriving DecidableEq

/-- `services.ServicePlanSchemas`: parameter-validation schemas carried
verbatim from the catalog into the plan object. -/
structure ServicePlanSchemas where
  ServiceInstance : ServiceInstanceSchema
  ServiceBinding : ServiceBindingSchema
deriving DecidableEq

/-- `osbapi.Plan`: one plan of a catalog service (spec section 6 catalog
document: `id, name, description, free, bindable, plan_updateable,
metadata, schemas`). -/
structure Plan where
  ID : String
  Name : String
  Description : String
  Free : Bool
  Bindable : Bool
  PlanUpdateable : Bool
  Metadata : Option (List (String × JsonVal))
  Schemas : ServicePlanSchemas

/-- Offering-level catalog feature flags, passed through opaquely from the
catalog document (spec section 6: `bindable, plan_updateable`). -/
structure CatalogFeatures where
  PlanUpdateable : Bool
  Bindable : Bool
deriving DecidableEq

/-- `osbapi.Service`: one service of the catalog document. -/
structure Service where
  ID : String
  Name : String
  Description : String
  Tags : List String
  Requires : List String
  BrokerCatalogFeatures : CatalogFeatures
  Metadata : Option (List (String × JsonVal))
  Plans : List Plan

/-- `osbapi.Catalog`: the parsed catalog document. -/
structure Catalog where
  Services : List Service

/-! ## Stored resource objects (`model/services` specs) -/

/-- `services.ServiceBrokerCatalog`: broker-catalog block of an offering
spec; `Metadata` is the marshaled raw JSON blob (`RawExtension.Raw`). -/
structure ServiceBrokerCatalog where
  Id : String
  Metadata : Option String
  Features : CatalogFeatures
deriving DecidableEq

/-- `services.ServiceOffering`: the offering spec written by the
reconciler. -/
structure ServiceOffering where
  Name : String
  Description : String
  Tags : List String
  Requires : List String
  DocumentationURL : Option String
  BrokerCatalog : ServiceBrokerCatalog
deriving DecidableEq

/-- `services.ServicePlanFeatures`. -/
structure ServicePlanFeatures where
  PlanUpdateable : Bool
  Bindable : Bool
deriving DecidableEq

/-- `services.ServicePlanBrokerCatalog`. -/
structure ServicePlanBrokerCatalog where
  ID : String
  Metadata : Option String
  Features : ServicePlanFeatures
deriving DecidableEq

/-- `services.BrokerServicePlan`: the plan spec written by the
reconciler. -/
structure BrokerServicePlan where
  Name : String
  Free : Bool
  Description : String
  BrokerCatalog : ServicePlanBrokerCatalog
  Schemas : ServicePlanSchemas
deriving DecidableEq

/-- A stored `CFServiceOffering` object.  The store keys objects by name,
so the name is not repeated inside the object; all objects live in the
broker's namespace. -/
structure OfferingObj where
  Labels : List (String × String)
  Spec : ServiceOffering
deriving DecidableEq

/-- A stored `CFServicePlan` object. -/
structure PlanObj where
  Labels : List (String × String)
  Spec : BrokerServicePlan
deriving DecidableEq

/-- The zero `ServiceOffering`, the spec of a freshly created object
before the mutation function runs. -/
def emptyServiceOffering : ServiceOffering :=
  { Name := "", Description := "", Tags := [], Requires := [],
    DocumentationURL := none,
    BrokerCatalog :=
      { Id := "", Metadata := none,
        Features := { PlanUpdateable := false, Bindable := false } } }

/-- The zero `BrokerServicePlan`. -/
def emptyBrokerServicePlan : BrokerServicePlan :=
  { Name := "", Free := false, Description := "",
    BrokerCatalog :=
      { ID := "", Metadata := none,
        Features := { PlanUpdateable := false, Bindable := false } },
    Schemas :=
      { ServiceInstance :=
          { Create := { Parameters := none }, Update := { Parameters := none } },
        ServiceBinding := { Create := { Parameters := none } } } }

/-- The zero offering object (`&korifiv1alpha1.CFServiceOffering` with only
object meta set). -/
def emptyOfferingObj : OfferingObj := { Labels := [], Spec := emptyServiceOffering }

/-- The zero plan object. -/
def emptyPlanObj : PlanObj := { Labels := [], Spec := emptyBrokerServicePlan }

/-! ## Go outcomes and the object store -/

/-- Outcome of a Go computation: a value, a returned `error`, or a panic. -/
inductive GoRes (α : Type) where
  | ok (a : α)
  | err (msg : String)
  | panics (msg : String)
deriving DecidableEq

/-- The Kubernetes object store visible to the reconciler: offerings and
plans keyed by object name, plus a log of the names actually written
(created or patched), in order.  A no-op `CreateOrPatch` does not log. -/
structure KubeState where
  offerings : List (String × OfferingObj)
  plans : List (String × PlanObj)
  writeLog : List String
deriving DecidableEq

/-- Failure injection for the Kubernetes client: an upsert on a key bound
in `failErrs` fails with the bound message before touching the store,
modelling an API error for that object. -/
structure UpsertEnv where
  failErrs : List (String × String)

/-- `controllerutil.CreateOrPatch` on one keyed map: fetch the object by
key; if absent, run the mutation function on the zero object and create
the result; if present, run the mutation function on the stored object and
patch only when it changed (deep-equality check).  A mutation-function
error aborts with no write.  Returns the new map, the in-memory object
after mutation, and whether a write happened. -/
def createOrPatchA {α : Type} [DecidableEq α] (env : UpsertEnv)
    (l : List (String × α)) (key : String) (init : α) (mutate : α → GoRes α) :
    GoRes (List (String × α) × α × Bool) :=
  match alookup env.failErrs key with
  | some msg => .err msg
  | none =>
    match alookup l key with
    | none =>
      match mutate init with
      | .ok o => .ok (aset l key o, o, true)
      | .err e => .err e
      | .panics m => .panics m
    | some existing =>
      match mutate existing with
      | .ok o =>
        if o = existing then .ok (l, o, false) else .ok (aset l key o, o, true)
      | .err e => .err e
      | .panics m => .panics m

/-! ## Broker, secret and status condition -/

/-- `CFServiceBrokerSpec`: only the credentials-secret reference name is
used by the reconciler. -/
structure BrokerSpec where
  CredentialsName : String
deriving DecidableEq

/-- A `metav1.Condition` (the last-transition timestamp, real time, is not
modelled); `status` is `true` for `ConditionTrue`. -/
structure Condition where
  type : String
  status : Bool
  reason : String
  message : String
  observedGeneration : Int
deriving DecidableEq

/-- `CFServiceBrokerStatus`. -/
structure BrokerStatus where
  ObservedGeneration : Int
  CredentialsObservedVersion : String
  Conditions : List Condition
deriving DecidableEq

/-- A `CFServiceBroker` object. -/
structure BrokerObj where
  Name : String
  Namespace : String
  Generation : Int
  Spec : BrokerSpec
  Status : BrokerStatus
deriving DecidableEq

/-- The decode status of a byte payload: every byte string either fails
JSON decoding or denotes a unique JSON value.  Secret data entries are
modelled by their decode status, which is all `validateCredentials`
observes about the bytes. -/
inductive JsonText where
  | malformed (raw : String)
  | wellFormed (v : JsonVal)

/-- A `corev1.Secret`. -/
structure SecretObj where
  Name : String
  Namespace : String
  ResourceVersion : String
  Data : List (String × JsonText)

/-- `json.Unmarshal` of a byte payload into a `map[string]any`: fails on a
missing payload (nil bytes), on malformed JSON, and on well-formed JSON
whose top level is not an object. -/
def unmarshalToMap : Option JsonText → Except String (List (String × JsonVal))
  | none => .error "unexpected end of JSON input"
  | some (.malformed _) => .error "invalid character"
  | some (.wellFormed (.obj kvs)) => .ok kvs
  | some (.wellFormed _) => .error "cannot unmarshal into map"

/-- `validateCredentials`: parse the credentials key of the secret data as
a JSON object and require the username and password fields, in that
order.  Returns the error, or `none` on success. -/
def validateCredentials (credentialsSecret : SecretObj) : Option String :=
  match unmarshalToMap (alookup credentialsSecret.Data credentialsSecretKey) with
  | .error e =>
    some ("invalid credentials secret " ++ goQuote credentialsSecret.Name ++ ": " ++ e)
  | .ok creds =>
    if (alookup creds usernameCredentialsKey).isNone then
      some ("broker credentials secret " ++ goQuote credentialsSecret.Name ++
        " does not specify " ++ goQuote usernameCredentialsKey)
    else if (alookup creds passwordCredentialsKey).isNone then
      some ("broker credentials secret " ++ goQuote credentialsSecret.Name ++
        " does not specify " ++ goQuote passwordCredentialsKey)
    else none

/-- `toSpecServiceOffering`: maps a catalog service to an offering spec.
When the service metadata holds a `documentationUrl` entry, the source
performs the unchecked type assertion `u.(string)`, which panics for a
non-string value.  `json.Marshal` of a decoded JSON value cannot fail, so
the marshal-error branch of the source is unreachable in this model. -/
def toSpecServiceOffering (catalogService : Service) : GoRes ServiceOffering :=
  let offering : ServiceOffering :=
    { Name := catalogService.Name,
      Description := catalogService.Description,
      Tags := catalogService.Tags,
      Requires := catalogService.Requires,
      DocumentationURL := none,
      BrokerCatalog :=
        { Id := catalogService.ID,
          Metadata := none,
          Features := catalogService.BrokerCatalogFeatures } }
  match catalogService.Metadata with
  | none => .ok offering
  | some md =>
    let withMd := fun (o : ServiceOffering) =>
      { o with BrokerCatalog :=
          { o.BrokerCatalog with Metadata := some (jsonMarshal (.obj md)) } }
    match alookup md "documentationUrl" with
    | none => .ok (withMd offering)
    | some (.str u) => .ok (withMd { offering with DocumentationURL := some u })
    | some _ => .panics "interface conversion: interface is not string"

/-- The object name derived for a catalog service:
`tools.NamespacedUUID(cfServiceBroker.Name, catalogService.ID)`. -/
def offeringKeyOf (brokerName catalogServiceID : String) : String :=
  NamespacedUUID [brokerName, catalogServiceID]

/-- The object name derived for a catalog plan:
`tools.NamespacedUUID(serviceOffering.Labels[RelServiceBrokerLabel],
catalogPlan.ID)`. -/
def planKeyOf (brokerLabelValue catalogPlanID : String) : String :=
  NamespacedUUID [brokerLabelValue, catalogPlanID]

/-- The plan object name as computed inside `reconcileCatalogPlan`, from
the in-memory offering object's broker label. -/
def planKeyFor (serviceOffering : OfferingObj) (catalogPlan : Plan) : String :=
  planKeyOf (alookupD serviceOffering.Labels relServiceBrokerLabel) catalogPlan.ID

/-- The mutation closure of `reconcileCatalogPlan`: set the broker and
offering back-reference labels and overwrite the whole spec from the
catalog plan (`json.Marshal` of a decoded JSON value cannot fail, so the
marshal-error branch of the source is unreachable here). -/
def planMutate (serviceOfferingName : String) (serviceOffering : OfferingObj)
    (catalogPlan : Plan) (servicePlan : PlanObj) : PlanObj :=
  { Labels :=
      aset (aset servicePlan.Labels relServiceBrokerLabel
          (alookupD serviceOffering.Labels relServiceBrokerLabel))
        relServiceOfferingLabel serviceOfferingName,
    Spec :=
      { Name := catalogPlan.Name,
        Free := catalogPlan.Free,
        Description := catalogPlan.Description,
        BrokerCatalog :=
          { ID := catalogPlan.ID,
            Metadata := some (marshalMetadata catalogPlan.Metadata),
            Features :=
              { PlanUpdateable := catalogPlan.PlanUpdateable,
                Bindable := catalogPlan.Bindable } },
        Schemas := catalogPlan.Schemas } }

/-- `reconcileCatalogPlan`: upsert the plan object derived from one
catalog plan.  The name is derived from the offering's broker label and
the catalog plan ID; labels and the whole spec are (re)computed by the
mutation function. -/
def reconcileCatalogPlan (env : UpsertEnv) (serviceOfferingName : String)
    (serviceOffering : OfferingObj) (catalogPlan : Plan) (st : KubeState) :
    GoRes Unit × KubeState :=
  let key := planKeyFor serviceOffering catalogPlan
  match createOrPatchA env st.plans key emptyPlanObj
      (fun servicePlan => .ok (planMutate serviceOfferingName serviceOffering catalogPlan servicePlan)) with
  | .ok (plans', _, wrote) =>
    (.ok (),
     { st with
       plans := plans',
       writeLog := if wrote then st.writeLog ++ [key] else st.writeLog })
  | .err e => (.err e, st)
  | .panics m => (.panics m, st)

/-- The plan loop of `reconcileCatalogService`, wrapping a plan failure
with the service-plan context message. -/
def reconcilePlansLoop (env : UpsertEnv) (catalogServiceID : String)
    (serviceOfferingName : String) (serviceOffering : OfferingObj) :
    List Plan → KubeState → GoRes Unit × KubeState
  | [], st => (.ok (), st)
  | p :: ps, st =>
    match reconcileCatalogPlan env serviceOfferingName serviceOffering p st with
    | (.ok _, st') =>
      reconcilePlansLoop env catalogServiceID serviceOfferingName serviceOffering ps st'
    | (.err e, st') =>
      (.err ("failed to reconcile service plan " ++ goQuote p.ID ++
        " for service offering " ++ goQuote catalogServiceID ++ ": " ++ e), st')
    | (.panics m, st') => (.panics m, st')

/-- The mutation closure of `reconcileCatalogService`: set the broker
back-reference label and overwrite the spec with the mapped catalog
service; a mapping failure aborts the upsert. -/
def offeringMutate (cfServiceBroker : BrokerObj) (catalogService : Service)
    (serviceOffering : OfferingObj) : GoRes OfferingObj :=
  match toSpecServiceOffering catalogService with
  | .ok spec =>
    .ok { Labels := aset serviceOffering.Labels relServiceBrokerLabel cfServiceBroker.Name,
          Spec := spec }
  | .err e => .err e
  | .panics m => .panics m

/-- `reconcileCatalogService`: upsert the offering object for one catalog
service, then reconcile each of its plans in catalog order. -/
def reconcileCatalogService (env : UpsertEnv) (cfServiceBroker : BrokerObj)
    (catalogService : Service) (st : KubeState) : GoRes Unit × KubeState :=
  let key := offeringKeyOf cfServiceBroker.Name catalogService.ID
  match createOrPatchA env st.offerings key emptyOfferingObj
      (offeringMutate cfServiceBroker catalogService) with
  | .ok (offerings', serviceOffering, wrote) =>
    let st1 : KubeState :=
      { st with
        offerings := offerings',
        writeLog := if wrote then st.writeLog ++ [key] else st.writeLog }
    reconcilePlansLoop env catalogService.ID key serviceOffering catalogService.Plans st1
  | .err e =>
    (.err ("failed to reconcile service offering " ++ goQuote catalogService.ID ++ " : " ++ e), st)
  | .panics m => (.panics m, st)

/-- The service loop of `reconcileCatalog`: first failure aborts the walk. -/
def reconcileServicesLoop (env : UpsertEnv) (cfServiceBroker : BrokerObj) :
    List Service → KubeState → GoRes Unit × KubeState
  | [], st => (.ok (), st)
  | s :: ss, st =>
    match reconcileCatalogService env cfServiceBroker s st with
    | (.ok _, st') => reconcileServicesLoop env cfServiceBroker ss st'
    | (.err e, st') => (.err e, st')
    | (.panics m, st') => (.panics m, st')

/-- `reconcileCatalog`: walk every service of the catalog. -/
def reconcileCatalog (env : UpsertEnv) (cfServiceBroker : BrokerObj)
    (catalog : Catalog) (st : KubeState) : GoRes Unit × KubeState :=
  reconcileServicesLoop env cfServiceBroker catalog.Services st

/-! ## Status condition plumbing and the reconciliation entry point -/

/-- `meta.SetStatusCondition`: replace the first condition of the same
type in place, or append a fresh one. -/
def setStatusCondition : List Condition → Condition → List Condition
  | [], c => [c]
  | c' :: rest, c =>
    if c'.type = c.type then c :: rest else c' :: setStatusCondition rest c

/-- Modelled from the spec: `k8s.NewReadyConditionBuilder` is not in the
source tree.  Spec section 4.4: "Builds the broker's terminal condition
from an error value (nil ⇒ Ready/True; otherwise Ready/False with a reason
string derived from the failure classification)".  The builder carries the
reason installed by `WithReason` (starting from a fixed placeholder) and
whether `Ready()` was called. -/
structure ReadyConditionBuilder where
  reason : String
  readyFlag : Bool

/-- The builder as freshly created by `NewReadyConditionBuilder`. -/
def initialReadyConditionBuilder : ReadyConditionBuilder :=
  { reason := "Unknown", readyFlag := false }

/-- Modelled from the spec: `Build` after `WithError err` — a nil error
yields Ready/True, a non-nil error yields Ready/False with the builder's
reason and the error text as message (spec section 4.4). -/
def buildCondition (b : ReadyConditionBuilder) (err : Option String) (gen : Int) : Condition :=
  match err with
  | none =>
    { type := "Ready", status := true, reason := "Ready", message := "",
      observedGeneration := gen }
  | some m =>
    { type := "Ready", status := false, reason := b.reason, message := m,
      observedGeneration := gen }

/-- Outcome of the secret fetch (`r.k8sClient.Get`), a collaborator
input: found, not-found, or another API error. -/
inductive GetSecretResult where
  | found (secret : SecretObj)
  | notFound (msg : String)
  | apiError (msg : String)

/-- Outcome of `r.catalogClient.GetCatalog`, a collaborator input. -/
inductive GetCatalogResult where
  | ok (catalog : Catalog)
  | fetchErr (msg : String)

/-- The collaborator environment of one reconciliation invocation. -/
structure ReconcileEnv where
  getSecret : GetSecretResult
  getCatalog : GetCatalogResult
  upserts : UpsertEnv

/-- `ctrl.Result`: only the requeue delay matters here. -/
structure CtrlResult where
  RequeueAfterSeconds : Option Nat
deriving DecidableEq

/-- The zero `ctrl.Result`. -/
def emptyCtrlResult : CtrlResult := { RequeueAfterSeconds := none }

/-- Everything observable about a completed (non-panicking) invocation of
`ReconcileResource`: the returned result and error, the final value of the
local `err` variable (the value the deferred condition write reads), the
broker object with its updated status, the object store, whether
`GetCatalog` was invoked, and how many times the deferred condition write
ran. -/
structure RROut where
  result : CtrlResult
  retErr : Option String
  finalErr : Option String
  broker : BrokerObj
  state : KubeState
  getCatalogCalled : Bool
  conditionWrites : Nat
deriving DecidableEq

/-- Outcome of `ReconcileResource`: normal completion or a panic. -/
inductive RRResult where
  | done (o : RROut)
  | panicked (msg : String)
deriving DecidableEq

/-- The deferred exit path of `ReconcileResource`: build the terminal
condition from the final error value and set it on the broker exactly
once. -/
def finishRR (b : ReadyConditionBuilder) (err : Option String)
    (cfServiceBroker : BrokerObj) (st : KubeState) (result : CtrlResult)
    (retErr : Option String) (fetched : Bool) : RROut :=
  let cond := buildCondition b err cfServiceBroker.Generation
  { result := result, retErr := retErr, finalErr := err,
    broker :=
      { cfServiceBroker with
        Status :=
          { cfServiceBroker.Status with
            Conditions := setStatusCondition cfServiceBroker.Status.Conditions cond } },
    state := st, getCatalogCalled := fetched, conditionWrites := 1 }

/-- `ReconcileResource`: the per-broker reconciliation sequence — record
the observed generation, fetch and validate the credentials secret, record
the observed secret version, fetch the catalog, reconcile it, and on every
exit path write the terminal Ready condition built from the final error
value. -/
def ReconcileResource (env : ReconcileEnv) (cfServiceBroker : BrokerObj)
    (st : KubeState) : RRResult :=
  let cfServiceBroker :=
    { cfServiceBroker with
      Status :=
        { cfServiceBroker.Status with
          ObservedGeneration := cfServiceBroker.Generation } }
  let builder := initialReadyConditionBuilder
  match env.getSecret with
  | .notFound msg =>
    .done (finishRR { builder with reason := "CredentialsSecretNotAvailable" }
      (some msg) cfServiceBroker st { RequeueAfterSeconds := some 2 } none false)
  | .apiError msg =>
    .done (finishRR { builder with reason := "CredentialsSecretNotAvailable" }
      (some msg) cfServiceBroker st emptyCtrlResult (some msg) false)
  | .found credentialsSecret =>
    match validateCredentials credentialsSecret with
    | some vErr =>
      .done (finishRR { builder with reason := "SecretInvalid" }
        (some vErr) cfServiceBroker st emptyCtrlResult (some vErr) false)
    | none =>
      let cfServiceBroker :=
        { cfServiceBroker with
          Status :=
            { cfServiceBroker.Status with
              CredentialsObservedVersion := credentialsSecret.ResourceVersion } }
      match env.getCatalog with
      | .fetchErr msg =>
        .done (finishRR { builder with reason := "GetCatalogFailed" }
          (some msg) cfServiceBroker st emptyCtrlResult (some msg) true)
      | .ok catalog =>
        match reconcileCatalog env.upserts cfServiceBroker catalog st with
        | (.panics m, _) => .panicked m
        | (.err e, st') =>
          .done (finishRR builder (some e) cfServiceBroker st' emptyCtrlResult
            (some ("failed to reconcile catalog: " ++ e)) true)
        | (.ok _, st') =>
          .done (finishRR { builder with readyFlag := true } none cfServiceBroker
            st' emptyCtrlResult none true)

/-! ## Secret watch mapping -/

/-- A reconcile request, identifying a broker by name and namespace. -/
structure Request where
  Name : String
  Namespace : String
deriving DecidableEq

/-- Modelled from the spec: the field index
`shared.IndexServiceBrokerCredentialsSecretName` is not in the source
tree; spec section 4.5 describes it as "a reverse mapping from secret
identity to the set of broker identities whose credentials reference it".
A broker matches a secret when it lives in the secret's namespace and its
credentials reference names the secret. -/
def brokerReferencesSecret (secretName secretNamespace : String) (sb : BrokerObj) : Bool :=
  sb.Namespace = secretNamespace && sb.Spec.CredentialsName = secretName

/-- `secretToServiceBroker`: on a secret event, list the brokers whose
credentials-secret reference names the secret (via the field index,
restricted to the secret's namespace) and produce one reconcile request
per such broker; on a list failure, produce no requests. -/
def secretToServiceBroker (brokers : List BrokerObj) (listFails : Bool)
    (secretName secretNamespace : String) : List Request :=
  if listFails then []
  else
    (brokers.filter (brokerReferencesSecret secretName secretNamespace)).map
      (fun sb => { Name := sb.Name, Namespace := sb.Namespace })

/-! ## Upsert lemmas -/

theorem createOrPatchA_ok_inj {α : Type} [DecidableEq α] {env : UpsertEnv}
    {l l' : List (String × α)} {key : String} {init o : α}
    {mutate : α → GoRes α} {w : Bool}
    (h : createOrPatchA env l key init mutate = .ok (l', o, w)) :
    alookup env.failErrs key = none := by
  cases hInj : alookup env.failErrs key with
  | none => rfl
  | some msg => simp [createOrPatchA, hInj] at h

theorem createOrPatchA_ok_spec {α : Type} [DecidableEq α] {env : UpsertEnv}
    {l l' : List (String × α)} {key : String} {init o : α}
    {mutate : α → GoRes α} {w : Bool}
    (h : createOrPatchA env l key init mutate = .ok (l', o, w)) :
    alookup l' key = some o ∧ (∃ x, mutate x = .ok o) ∧
      ∀ k, k ≠ key → alookup l' k = alookup l k := by
  have hInj := createOrPatchA_ok_inj h
  cases hLk : alookup l key with
  | none =>
    cases hM : mutate init with
    | ok o' =>
      simp only [createOrPatchA, hInj, hLk, hM, GoRes.ok.injEq, Prod.mk.injEq] at h
      obtain ⟨rfl, rfl, rfl⟩ := h
      exact ⟨alookup_aset_self _ _ _, ⟨init, hM⟩,
        fun k hk => alookup_aset_other _ _ _ _ hk⟩
    | err e => simp [createOrPatchA, hInj, hLk, hM] at h
    | panics m => simp [createOrPatchA, hInj, hLk, hM] at h
  | some existing =>
    cases hM : mutate existing with
    | ok o' =>
      by_cases hEq : o' = existing
      · subst hEq
        simp only [createOrPatchA, hInj, hLk, hM, if_pos rfl,
          GoRes.ok.injEq, Prod.mk.injEq] at h
        obtain ⟨rfl, rfl, rfl⟩ := h
        exact ⟨hLk, ⟨o, hM⟩, fun k _ => rfl⟩
      · simp only [createOrPatchA, hInj, hLk, hM, if_neg hEq,
          GoRes.ok.injEq, Prod.mk.injEq] at h
        obtain ⟨rfl, rfl, rfl⟩ := h
        exact ⟨alookup_aset_self _ _ _, ⟨existing, hM⟩,
          fun k hk => alookup_aset_other _ _ _ _ hk⟩
    | err e => simp [createOrPatchA, hInj, hLk, hM] at h
    | panics m => simp [createOrPatchA, hInj, hLk, hM] at h

theorem createOrPatchA_noop {α : Type} [DecidableEq α] {env : UpsertEnv}
    {l : List (String × α)} {key : String} {init o : α} {mutate : α → GoRes α}
    (hInj : alookup env.failErrs key = none)
    (hLk : alookup l key = some o) (hM : mutate o = .ok o) :
    createOrPatchA env l key init mutate = .ok (l, o, false) := by
  simp [createOrPatchA, hInj, hLk, hM]

/-! ## Mutation-closure idempotence -/

theorem relLabels_ne : relServiceBrokerLabel ≠ relServiceOfferingLabel := by decide

theorem planMutate_idem (n : String) (off : OfferingObj) (p : Plan) (x : PlanObj) :
    planMutate n off p (planMutate n off p x) = planMutate n off p x := by
  have h1 : alookup
      (aset (aset x.Labels relServiceBrokerLabel (alookupD off.Labels relServiceBrokerLabel))
        relServiceOfferingLabel n) relServiceBrokerLabel =
      some (alookupD off.Labels relServiceBrokerLabel) := by
    rw [alookup_aset_other _ _ _ _ relLabels_ne, alookup_aset_self]
  have h2 : alookup
      (aset (aset x.Labels relServiceBrokerLabel (alookupD off.Labels relServiceBrokerLabel))
        relServiceOfferingLabel n) relServiceOfferingLabel = some n :=
    alookup_aset_self _ _ _
  simp only [planMutate]
  rw [aset_self_of_alookup _ _ _ h1, aset_self_of_alookup _ _ _ h2]

theorem offeringMutate_ok_idem (br : BrokerObj) (svc : Service) (x o : OfferingObj)
    (h : offeringMutate br svc x = .ok o) : offeringMutate br svc o = .ok o := by
  unfold offeringMutate at h ⊢
  cases hS : toSpecServiceOffering svc with
  | ok spec =>
    rw [hS] at h
    simp only [GoRes.ok.injEq] at h
    subst h
    simp [aset_aset_self]
  | err e => rw [hS] at h; simp at h
  | panics m => rw [hS] at h; simp at h

theorem offeringMutate_ok_label (br : BrokerObj) (svc : Service) (x o : OfferingObj)
    (h : offeringMutate br svc x = .ok o) :
    alookupD o.Labels relServiceBrokerLabel = br.Name := by
  unfold offeringMutate at h
  cases hS : toSpecServiceOffering svc with
  | ok spec =>
    rw [hS] at h
    simp only [GoRes.ok.injEq] at h
    subst h
    simp [alookupD, alookup_aset_self]
  | err e => rw [hS] at h; simp at h
  | panics m => rw [hS] at h; simp at h

/-! ## Plan-level reconciliation lemmas -/

/-- The plan object for `catalogPlan` is stored, is a fixed point of the
plan mutation closure, and its upsert has no injected failure: re-running
`reconcileCatalogPlan` from such a store is a no-op. -/
def planStable (env : UpsertEnv) (serviceOfferingName : String)
    (serviceOffering : OfferingObj) (catalogPlan : Plan)
    (pl : List (String × PlanObj)) : Prop :=
  alookup env.failErrs (planKeyFor serviceOffering catalogPlan) = none ∧
  ∃ w, alookup pl (planKeyFor serviceOffering catalogPlan) = some w ∧
       planMutate serviceOfferingName serviceOffering catalogPlan w = w

theorem planStable_of_lookup_eq {env : UpsertEnv} {n : String}
    {off : OfferingObj} {p : Plan} {pl pl' : List (String × PlanObj)}
    (h : planStable env n off p pl)
    (hEq : alookup pl' (planKeyFor off p) = alookup pl (planKeyFor off p)) :
    planStable env n off p pl' := by
  obtain ⟨hInj, w, hLk, hFix⟩ := h
  exact ⟨hInj, w, hEq.trans hLk, hFix⟩

theorem reconcileCatalogPlan_frame {env : UpsertEnv} {n : String}
    {off : OfferingObj} {p : Plan} {st st' : KubeState} {res : GoRes Unit}
    (h : reconcileCatalogPlan env n off p st = (res, st')) :
    st'.offerings = st.offerings ∧
    ∀ k, k ≠ planKeyFor off p → alookup st'.plans k = alookup st.plans k := by
  cases hC : createOrPatchA env st.plans (planKeyFor off p) emptyPlanObj
      (fun servicePlan => .ok (planMutate n off p servicePlan)) with
  | ok triple =>
    obtain ⟨plans', o, w⟩ := triple
    simp only [reconcileCatalogPlan, hC, Prod.mk.injEq] at h
    obtain ⟨-, rfl⟩ := h
    exact ⟨rfl, fun k hk => (createOrPatchA_ok_spec hC).2.2 k hk⟩
  | err e =>
    simp only [reconcileCatalogPlan, hC, Prod.mk.injEq] at h
    obtain ⟨-, rfl⟩ := h
    exact ⟨rfl, fun _ _ => rfl⟩
  | panics m =>
    simp only [reconcileCatalogPlan, hC, Prod.mk.injEq] at h
    obtain ⟨-, rfl⟩ := h
    exact ⟨rfl, fun _ _ => rfl⟩

theorem reconcileCatalogPlan_ok_stable {env : UpsertEnv} {n : String}
    {off : OfferingObj} {p : Plan} {st st' : KubeState}
    (h : reconcileCatalogPlan env n off p st = (.ok (), st')) :
    planStable env n off p st'.plans := by
  cases hC : createOrPatchA env st.plans (planKeyFor off p) emptyPlanObj
      (fun servicePlan => .ok (planMutate n off p servicePlan)) with
  | ok triple =>
    obtain ⟨plans', o, w⟩ := triple
    simp only [reconcileCatalogPlan, hC, Prod.mk.injEq] at h
    obtain ⟨-, rfl⟩ := h
    refine ⟨createOrPatchA_ok_inj hC, o, (createOrPatchA_ok_spec hC).1, ?_⟩
    obtain ⟨-, ⟨x, hx⟩, -⟩ := createOrPatchA_ok_spec hC
    simp only [GoRes.ok.injEq] at hx
    rw [← hx]
    exact planMutate_idem n off p x
  | err e => simp [reconcileCatalogPlan, hC] at h
  | panics m => simp [reconcileCatalogPlan, hC] at h

theorem reconcileCatalogPlan_noop {env : UpsertEnv} {n : String}
    {off : OfferingObj} {p : Plan} {st : KubeState}
    (h : planStable env n off p st.plans) :
    reconcileCatalogPlan env n off p st = (.ok (), st) := by
  obtain ⟨hInj, w, hLk, hFix⟩ := h
  have hC := @createOrPatchA_noop PlanObj _ env st.plans (planKeyFor off p)
    emptyPlanObj w (fun servicePlan => .ok (planMutate n off p servicePlan))
    hInj hLk (by simp only []; rw [hFix])
  simp [reconcileCatalogPlan, hC]

theorem reconcilePlansLoop_frame {env : UpsertEnv} {sid n : String}
    {off : OfferingObj} : ∀ {ps : List Plan} {st st' : KubeState} {res : GoRes Unit},
    reconcilePlansLoop env sid n off ps st = (res, st') →
    st'.offerings = st.offerings ∧
    ∀ k, (∀ p ∈ ps, k ≠ planKeyFor off p) → alookup st'.plans k = alookup st.plans k := by
  intro ps
  induction ps with
  | nil =>
    intro st st' res h
    simp only [reconcilePlansLoop, Prod.mk.injEq] at h
    obtain ⟨-, rfl⟩ := h
    exact ⟨rfl, fun _ _ => rfl⟩
  | cons p ps ih =>
    intro st st' res h
    simp only [reconcilePlansLoop] at h
    cases hP : reconcileCatalogPlan env n off p st with
    | mk r st₁ =>
      rw [hP] at h
      have hPf := reconcileCatalogPlan_frame hP
      cases r with
      | ok u =>
        simp only at h
        have hLf := ih h
        refine ⟨hLf.1.trans hPf.1, fun k hk => ?_⟩
        rw [hLf.2 k (fun q hq => hk q (List.mem_cons_of_mem p hq)),
          hPf.2 k (hk p (List.mem_cons_self p ps))]
      | err e =>
        simp only [Prod.mk.injEq] at h
        obtain ⟨-, rfl⟩ := h
        exact ⟨hPf.1, fun k hk => hPf.2 k (hk p (List.mem_cons_self p ps))⟩
      | panics m =>
        simp only [Prod.mk.injEq] at h
        obtain ⟨-, rfl⟩ := h
        exact ⟨hPf.1, fun k hk => hPf.2 k (hk p (List.mem_cons_self p ps))⟩

theorem reconcilePlansLoop_ok_stable {env : UpsertEnv} {sid n : String}
    {off : OfferingObj} : ∀ {ps : List Plan} {st st' : KubeState},
    (ps.map (planKeyFor off)).Nodup →
    reconcilePlansLoop env sid n off ps st = (.ok (), st') →
    ∀ p ∈ ps, planStable env n off p st'.plans := by
  intro ps
  induction ps with
  | nil => intro st st' _ _ p hp; exact absurd hp (List.not_mem_nil p)
  | cons p ps ih =>
    intro st st' hN h q hq
    simp only [reconcilePlansLoop] at h
    cases hP : reconcileCatalogPlan env n off p st with
    | mk r st₁ =>
      rw [hP] at h
      cases r with
      | ok u =>
        simp only at h
        rcases List.mem_cons.mp hq with rfl | hq'
        · have hStable := reconcileCatalogPlan_ok_stable hP
          have hKey : ∀ p' ∈ ps, planKeyFor off q ≠ planKeyFor off p' := by
            intro p' hp' hEq
            have : planKeyFor off q ∈ ps.map (planKeyFor off) :=
              hEq ▸ List.mem_map_of_mem (planKeyFor off) hp'
            exact (List.nodup_cons.mp hN).1 this
          exact planStable_of_lookup_eq hStable
            ((reconcilePlansLoop_frame h).2 _ hKey)
        · exact ih (List.nodup_cons.mp hN).2 h q hq'
      | err e => simp at h
      | panics m => simp at h

theorem reconcilePlansLoop_noop {env : UpsertEnv} {sid n : String}
    {off : OfferingObj} : ∀ {ps : List Plan} {st : KubeState},
    (∀ p ∈ ps, planStable env n off p st.plans) →
    reconcilePlansLoop env sid n off ps st = (.ok (), st) := by
  intro ps
  induction ps with
  | nil => intro st _; rfl
  | cons p ps ih =>
    intro st h
    have hHead := reconcileCatalogPlan_noop (h p (List.mem_cons_self p ps))
    simp only [reconcilePlansLoop, hHead]
    exact ih (fun q hq => h q (List.mem_cons_of_mem p hq))

/-! ## Service-level reconciliation lemmas -/

/-- The offering object for `catalogService` and all its plan objects are
stored fixed points of their mutation closures, with no injected upsert
failure: re-running `reconcileCatalogService` from such a store is a
no-op. -/
def serviceStable (env : UpsertEnv) (cfServiceBroker : BrokerObj)
    (catalogService : Service) (st : KubeState) : Prop :=
  alookup env.failErrs (offeringKeyOf cfServiceBroker.Name catalogService.ID) = none ∧
  ∃ v, alookup st.offerings (offeringKeyOf cfServiceBroker.Name catalogService.ID) = some v ∧
    offeringMutate cfServiceBroker catalogService v = .ok v ∧
    ∀ p ∈ catalogService.Plans,
      planStable env (offeringKeyOf cfServiceBroker.Name catalogService.ID) v p st.plans

theorem reconcileCatalogService_noop {env : UpsertEnv} {br : BrokerObj}
    {svc : Service} {st : KubeState} (h : serviceStable env br svc st) :
    reconcileCatalogService env br svc st = (.ok (), st) := by
  obtain ⟨hInj, v, hLk, hFix, hPlans⟩ := h
  have hC := @createOrPatchA_noop OfferingObj _ env st.offerings
    (offeringKeyOf br.Name svc.ID) emptyOfferingObj v (offeringMutate br svc)
    hInj hLk hFix
  simp only [reconcileCatalogService, hC, Bool.false_eq_true, if_neg]
  exact reconcilePlansLoop_noop hPlans

theorem reconcileCatalogService_ok_stable {env : UpsertEnv} {br : BrokerObj}
    {svc : Service} {st st' : KubeState}
    (hN : (svc.Plans.map (fun p => planKeyOf br.Name p.ID)).Nodup)
    (h : reconcileCatalogService env br svc st = (.ok (), st')) :
    serviceStable env br svc st' := by
  cases hC : createOrPatchA env st.offerings (offeringKeyOf br.Name svc.ID)
      emptyOfferingObj (offeringMutate br svc) with
  | ok triple =>
    obtain ⟨offerings', obj, w⟩ := triple
    simp only [reconcileCatalogService, hC] at h
    obtain ⟨hLk', ⟨x, hx⟩, hFr⟩ := createOrPatchA_ok_spec hC
    have hFix : offeringMutate br svc obj = .ok obj :=
      offeringMutate_ok_idem br svc x obj hx
    have hLab : alookupD obj.Labels relServiceBrokerLabel = br.Name :=
      offeringMutate_ok_label br svc x obj hx
    have hKeys : svc.Plans.map (planKeyFor obj) =
        svc.Plans.map (fun p => planKeyOf br.Name p.ID) := by
      apply List.map_congr_left
      intro p hp
      simp [planKeyFor, hLab]
    have hFrame := reconcilePlansLoop_frame h
    refine ⟨createOrPatchA_ok_inj hC, obj, ?_, hFix, ?_⟩
    · rw [hFrame.1]
      exact hLk'
    · intro p hp
      have hN' : (svc.Plans.map (planKeyFor obj)).Nodup := by
        rw [hKeys]; exact hN
      exact reconcilePlansLoop_ok_stable hN' h p hp
  | err e => simp [reconcileCatalogService, hC] at h
  | panics m => simp [reconcileCatalogService, hC] at h

theorem reconcileCatalogService_frame {env : UpsertEnv} {br : BrokerObj}
    {svc : Service} {st st' : KubeState} {res : GoRes Unit}
    (h : reconcileCatalogService env br svc st = (res, st')) :
    (∀ k, k ≠ offeringKeyOf br.Name svc.ID →
      alookup st'.offerings k = alookup st.offerings k) ∧
    (∀ k, (∀ p ∈ svc.Plans, k ≠ planKeyOf br.Name p.ID) →
      alookup st'.plans k = alookup st.plans k) := by
  cases hC : createOrPatchA env st.offerings (offeringKeyOf br.Name svc.ID)
      emptyOfferingObj (offeringMutate br svc) with
  | ok triple =>
    obtain ⟨offerings', obj, w⟩ := triple
    simp only [reconcileCatalogService, hC] at h
    obtain ⟨-, ⟨x, hx⟩, hFr⟩ := createOrPatchA_ok_spec hC
    have hLab : alookupD obj.Labels relServiceBrokerLabel = br.Name :=
      offeringMutate_ok_label br svc x obj hx
    have hFrame := reconcilePlansLoop_frame h
    constructor
    · intro k hk
      rw [hFrame.1]
      exact hFr k hk
    · intro k hk
      refine hFrame.2 k ?_
      intro p hp
      rw [planKeyFor, hLab]
      exact hk p hp
  | err e =>
    simp only [reconcileCatalogService, hC, Prod.mk.injEq] at h
    obtain ⟨-, rfl⟩ := h
    exact ⟨fun _ _ => rfl, fun _ _ => rfl⟩
  | panics m =>
    simp only [reconcileCatalogService, hC, Prod.mk.injEq] at h
    obtain ⟨-, rfl⟩ := h
    exact ⟨fun _ _ => rfl, fun _ _ => rfl⟩

theorem serviceStable_of_agree {env : UpsertEnv} {br : BrokerObj}
    {svc : Service} {st st' : KubeState}
    (h : serviceStable env br svc st)
    (hO : alookup st'.offerings (offeringKeyOf br.Name svc.ID) =
      alookup st.offerings (offeringKeyOf br.Name svc.ID))
    (hP : ∀ p ∈ svc.Plans, alookup st'.plans (planKeyOf br.Name p.ID) =
      alookup st.plans (planKeyOf br.Name p.ID)) :
    serviceStable env br svc st' := by
  obtain ⟨hInj, v, hLk, hFix, hPlans⟩ := h
  have hLab : alookupD v.Labels relServiceBrokerLabel = br.Name :=
    offeringMutate_ok_label br svc v v hFix
  refine ⟨hInj, v, hO.trans hLk, hFix, fun p hp => ?_⟩
  refine planStable_of_lookup_eq (hPlans p hp) ?_
  rw [planKeyFor, hLab]
  exact hP p hp

/-! ## Catalog-walk lemmas -/

theorem reconcileServicesLoop_frame {env : UpsertEnv} {br : BrokerObj} :
    ∀ {svcs : List Service} {st st' : KubeState} {res : GoRes Unit},
    reconcileServicesLoop env br svcs st = (res, st') →
    (∀ k, (∀ s ∈ svcs, k ≠ offeringKeyOf br.Name s.ID) →
      alookup st'.offerings k = alookup st.offerings k) ∧
    (∀ k, (∀ s ∈ svcs, ∀ p ∈ s.Plans, k ≠ planKeyOf br.Name p.ID) →
      alookup st'.plans k = alookup st.plans k) := by
  intro svcs
  induction svcs with
  | nil =>
    intro st st' res h
    simp only [reconcileServicesLoop, Prod.mk.injEq] at h
    obtain ⟨-, rfl⟩ := h
    exact ⟨fun _ _ => rfl, fun _ _ => rfl⟩
  | cons s svcs ih =>
    intro st st' res h
    simp only [reconcileServicesLoop] at h
    cases hS : reconcileCatalogService env br s st with
    | mk r st₁ =>
      rw [hS] at h
      have hSf := reconcileCatalogService_frame hS
      cases r with
      | ok u =>
        simp only at h
        have hLf := ih h
        constructor
        · intro k hk
          rw [hLf.1 k (fun s' hs' => hk s' (List.mem_cons_of_mem s hs')),
            hSf.1 k (hk s (List.mem_cons_self s svcs))]
        · intro k hk
          rw [hLf.2 k (fun s' hs' => hk s' (List.mem_cons_of_mem s hs')),
            hSf.2 k (hk s (List.mem_cons_self s svcs))]
      | err e =>
        simp only [Prod.mk.injEq] at h
        obtain ⟨-, rfl⟩ := h
        exact ⟨fun k hk => hSf.1 k (hk s (List.mem_cons_self s svcs)),
          fun k hk => hSf.2 k (hk s (List.mem_cons_self s svcs))⟩
      | panics m =>
        simp only [Prod.mk.injEq] at h
        obtain ⟨-, rfl⟩ := h
        exact ⟨fun k hk => hSf.1 k (hk s (List.mem_cons_self s svcs)),
          fun k hk => hSf.2 k (hk s (List.mem_cons_self s svcs))⟩

theorem reconcileServicesLoop_ok_stable {env : UpsertEnv} {br : BrokerObj} :
    ∀ {svcs : List Service} {st st' : KubeState},
    (svcs.map (fun s => offeringKeyOf br.Name s.ID)).Nodup →
    ((svcs.flatMap Service.Plans).map (fun p => planKeyOf br.Name p.ID)).Nodup →
    reconcileServicesLoop env br svcs st = (.ok (), st') →
    ∀ s ∈ svcs, serviceStable env br s st' := by
  intro svcs
  induction svcs with
  | nil => intro st st' _ _ _ s hs; exact absurd hs (List.not_mem_nil s)
  | cons s svcs ih =>
    intro st st' hO hP h q hq
    have hPapp :
        ((s :: svcs).flatMap Service.Plans).map (fun p => planKeyOf br.Name p.ID) =
        s.Plans.map (fun p => planKeyOf br.Name p.ID) ++
          (svcs.flatMap Service.Plans).map (fun p => planKeyOf br.Name p.ID) := by
      rw [List.flatMap_cons, List.map_append]
    rw [hPapp] at hP
    simp only [reconcileServicesLoop] at h
    cases hS : reconcileCatalogService env br s st with
    | mk r st₁ =>
      rw [hS] at h
      cases r with
      | ok u =>
        simp only at h
        rcases List.mem_cons.mp hq with rfl | hq'
        · have hStable :=
            reconcileCatalogService_ok_stable (List.Nodup.of_append_left hP) hS
          have hFrame := reconcileServicesLoop_frame h
          refine serviceStable_of_agree hStable ?_ ?_
          · refine hFrame.1 _ ?_
            intro s' hs' hEq
            have : offeringKeyOf br.Name q.ID ∈
                svcs.map (fun s => offeringKeyOf br.Name s.ID) :=
              hEq ▸ List.mem_map_of_mem _ hs'
            exact (List.nodup_cons.mp hO).1 this
          · intro p hp
            refine hFrame.2 _ ?_
            intro s' hs' p' hp' hEq
            have hMem₁ : planKeyOf br.Name p.ID ∈
                q.Plans.map (fun p => planKeyOf br.Name p.ID) :=
              List.mem_map_of_mem _ hp
            have hMem₂ : planKeyOf br.Name p.ID ∈
                (svcs.flatMap Service.Plans).map (fun p => planKeyOf br.Name p.ID) := by
              refine hEq ▸ List.mem_map_of_mem _ ?_
              exact List.mem_flatMap.mpr ⟨s', hs', hp'⟩
            exact List.disjoint_of_nodup_append hP hMem₁ hMem₂
        · exact ih (List.nodup_cons.mp hO).2 (List.Nodup.of_append_right hP) h q hq'
      | err e => simp at h
      | panics m => simp at h

theorem reconcileServicesLoop_noop {env : UpsertEnv} {br : BrokerObj} :
    ∀ {svcs : List Service} {st : KubeState},
    (∀ s ∈ svcs, serviceStable env br s st) →
    reconcileServicesLoop env br svcs st = (.ok (), st) := by
  intro svcs
  induction svcs with
  | nil => intro st _; rfl
  | cons s svcs ih =>
    intro st h
    have hHead := reconcileCatalogService_noop (h s (List.mem_cons_self s svcs))
    simp only [reconcileServicesLoop, hHead]
    exact ih (fun q hq => h q (List.mem_cons_of_mem s hq))

/-! ## Presence and content lemmas -/

theorem reconcileCatalogPlan_preserves_some {env : UpsertEnv} {n : String}
    {off : OfferingObj} {p : Plan} {st st' : KubeState} {k : String}
    (h : reconcileCatalogPlan env n off p st = (.ok (), st'))
    (hk : ∃ v, alookup st.plans k = some v) :
    ∃ v', alookup st'.plans k = some v' := by
  by_cases hEq : k = planKeyFor off p
  · subst hEq
    obtain ⟨-, w, hw, -⟩ := reconcileCatalogPlan_ok_stable h
    exact ⟨w, hw⟩
  · obtain ⟨v, hv⟩ := hk
    exact ⟨v, ((reconcileCatalogPlan_frame h).2 k hEq).trans hv⟩

theorem reconcilePlansLoop_preserves_some {env : UpsertEnv} {sid n : String}
    {off : OfferingObj} : ∀ {ps : List Plan} {st st' : KubeState} {k : String},
    reconcilePlansLoop env sid n off ps st = (.ok (), st') →
    (∃ v, alookup st.plans k = some v) →
    ∃ v', alookup st'.plans k = some v' := by
  intro ps
  induction ps with
  | nil =>
    intro st st' k h hk
    simp only [reconcilePlansLoop, Prod.mk.injEq] at h
    obtain ⟨-, rfl⟩ := h
    exact hk
  | cons p ps ih =>
    intro st st' k h hk
    simp only [reconcilePlansLoop] at h
    cases hP : reconcileCatalogPlan env n off p st with
    | mk r st₁ =>
      rw [hP] at h
      cases r with
      | ok u =>
        simp only at h
        exact ih h (reconcileCatalogPlan_preserves_some hP hk)
      | err e => simp at h
      | panics m => simp at h

theorem reconcilePlansLoop_ok_present {env : UpsertEnv} {sid n : String}
    {off : OfferingObj} : ∀ {ps : List Plan} {st st' : KubeState},
    reconcilePlansLoop env sid n off ps st = (.ok (), st') →
    ∀ p ∈ ps, ∃ v, alookup st'.plans (planKeyFor off p) = some v := by
  intro ps
  induction ps with
  | nil => intro st st' _ p hp; exact absurd hp (List.not_mem_nil p)
  | cons p ps ih =>
    intro st st' h q hq
    simp only [reconcilePlansLoop] at h
    cases hP : reconcileCatalogPlan env n off p st with
    | mk r st₁ =>
      rw [hP] at h
      cases r with
      | ok u =>
        simp only at h
        rcases List.mem_cons.mp hq with rfl | hq'
        · obtain ⟨-, w, hw, -⟩ := reconcileCatalogPlan_ok_stable hP
          exact reconcilePlansLoop_preserves_some h ⟨w, hw⟩
        · exact ih h q hq'
      | err e => simp at h
      | panics m => simp at h

theorem reconcileCatalogService_ok_present {env : UpsertEnv} {br : BrokerObj}
    {svc : Service} {st st' : KubeState}
    (h : reconcileCatalogService env br svc st = (.ok (), st')) :
    (∃ v, alookup st'.offerings (offeringKeyOf br.Name svc.ID) = some v) ∧
    ∀ p ∈ svc.Plans, ∃ w, alookup st'.plans (planKeyOf br.Name p.ID) = some w := by
  cases hC : createOrPatchA env st.offerings (offeringKeyOf br.Name svc.ID)
      emptyOfferingObj (offeringMutate br svc) with
  | ok triple =>
    obtain ⟨offerings', obj, w⟩ := triple
    simp only [reconcileCatalogService, hC] at h
    obtain ⟨hLk', ⟨x, hx⟩, -⟩ := createOrPatchA_ok_spec hC
    have hLab : alookupD obj.Labels relServiceBrokerLabel = br.Name :=
      offeringMutate_ok_label br svc x obj hx
    constructor
    · refine ⟨obj, ?_⟩
      rw [(reconcilePlansLoop_frame h).1]
      exact hLk'
    · intro p hp
      have := reconcilePlansLoop_ok_present h p hp
      rw [planKeyFor, hLab] at this
      exact this
  | err e => simp [reconcileCatalogService, hC] at h
  | panics m => simp [reconcileCatalogService, hC] at h

theorem serviceStable_present {env : UpsertEnv} {br : BrokerObj} {svc : Service}
    {st : KubeState} (h : serviceStable env br svc st) :
    (∃ v, alookup st.offerings (offeringKeyOf br.Name svc.ID) = some v) ∧
    ∀ p ∈ svc.Plans, ∃ w, alookup st.plans (planKeyOf br.Name p.ID) = some w := by
  obtain ⟨-, v, hLk, hFix, hPlans⟩ := h
  have hLab : alookupD v.Labels relServiceBrokerLabel = br.Name :=
    offeringMutate_ok_label br svc v v hFix
  refine ⟨⟨v, hLk⟩, fun p hp => ?_⟩
  obtain ⟨-, w, hw, -⟩ := hPlans p hp
  rw [planKeyFor, hLab] at hw
  exact ⟨w, hw⟩

/-- C7: after a successful `reconcileCatalogPlan`, the stored plan object
mirrors the catalog plan: its broker-catalog ID equals the catalog plan's
ID, its features mirror the plan's `plan_updateable` and `bindable` flags,
its name, free flag and description are copied from the catalog plan, its
schemas are passed through unchanged, and its metadata is the marshaled
catalog metadata blob. -/
theorem reconcileCatalogPlan_content {env : UpsertEnv} {n : String}
    {off : OfferingObj} {p : Plan} {st st' : KubeState}
    (h : reconcileCatalogPlan env n off p st = (.ok (), st')) :
    ∃ v, alookup st'.plans (planKeyFor off p) = some v ∧
      v.Spec.BrokerCatalog.ID = p.ID ∧
      v.Spec.BrokerCatalog.Features.Bindable = p.Bindable ∧
      v.Spec.BrokerCatalog.Features.PlanUpdateable = p.PlanUpdateable ∧
      v.Spec.Name = p.Name ∧ v.Spec.Free = p.Free ∧
      v.Spec.Description = p.Description ∧ v.Spec.Schemas = p.Schemas ∧
      v.Spec.BrokerCatalog.Metadata = some (marshalMetadata p.Metadata) := by
  obtain ⟨-, w, hw, hFix⟩ := reconcileCatalogPlan_ok_stable h
  refine ⟨w, hw, ?_⟩
  rw [← hFix]
  simp [planMutate]

/-! ## Condition lemmas -/

/-- The Ready conditions of a condition list. -/
def readyConds (conds : List Condition) : List Condition :=
  conds.filter (fun c => c.type = "Ready")

theorem buildCondition_type (b : ReadyConditionBuilder) (err : Option String) (gen : Int) :
    (buildCondition b err gen).type = "Ready" := by
  cases err <;> rfl

theorem readyConds_setStatusCondition :
    ∀ (conds : List Condition) (c : Condition), c.type = "Ready" →
    (readyConds conds).length ≤ 1 →
    readyConds (setStatusCondition conds c) = [c] := by
  intro conds
  induction conds with
  | nil =>
    intro c hc _
    simp [setStatusCondition, readyConds, hc]
  | cons c' rest ih =>
    intro c hc hLen
    by_cases hT : c'.type = c.type
    · have hc' : c'.type = "Ready" := hT.trans hc
      have hRest : readyConds rest = [] := by
        have : readyConds (c' :: rest) = c' :: readyConds rest := by
          simp [readyConds, hc']
        rw [this] at hLen
        simp only [List.length_cons] at hLen
        have := Nat.le_of_succ_le_succ hLen
        exact List.eq_nil_of_length_eq_zero (Nat.le_zero.mp this)
      simp only [setStatusCondition, if_pos hT]
      have hCons : readyConds (c :: rest) = c :: readyConds rest := by
        simp [readyConds, hc]
      rw [hCons, hRest]
    · have hc' : c'.type ≠ "Ready" := fun hEq => hT (hEq.trans hc.symm)
      have hDrop : readyConds (c' :: rest) = readyConds rest := by
        simp [readyConds, hc']
      rw [hDrop] at hLen
      simp only [setStatusCondition, if_neg hT]
      have : readyConds (c' :: setStatusCondition rest c) =
          readyConds (setStatusCondition rest c) := by
        simp [readyConds, hc']
      rw [this]
      exact ih c hc hLen

theorem readyConds_after_finishRR (b : ReadyConditionBuilder) (err : Option String)
    (br : BrokerObj) (st : KubeState) (result : CtrlResult)
    (retErr : Option String) (fetched : Bool)
    (hLen : (readyConds br.Status.Conditions).length ≤ 1) :
    readyConds (finishRR b err br st result retErr fetched).broker.Status.Conditions =
      [buildCondition b err br.Generation] :=
  readyConds_setStatusCondition br.Status.Conditions _
    (buildCondition_type b err br.Generation) hLen

/-! ## Broker-status irrelevance of the catalog walk

The catalog walk reads only the broker's name, so updating the broker's
status before the walk does not affect it. -/

theorem offeringMutate_name_only {b b' : BrokerObj} (svc : Service)
    (hName : b.Name = b'.Name) : offeringMutate b svc = offeringMutate b' svc := by
  funext so
  unfold offeringMutate
  rw [hName]

theorem reconcileCatalogService_name_only {env : UpsertEnv} {b b' : BrokerObj}
    (svc : Service) (hName : b.Name = b'.Name) (st : KubeState) :
    reconcileCatalogService env b svc st = reconcileCatalogService env b' svc st := by
  unfold reconcileCatalogService
  rw [hName, offeringMutate_name_only svc hName]

theorem reconcileServicesLoop_name_only {env : UpsertEnv} {b b' : BrokerObj}
    (hName : b.Name = b'.Name) : ∀ (svcs : List Service) (st : KubeState),
    reconcileServicesLoop env b svcs st = reconcileServicesLoop env b' svcs st := by
  intro svcs
  induction svcs with
  | nil => intro st; rfl
  | cons s svcs ih =>
    intro st
    unfold reconcileServicesLoop
    rw [reconcileCatalogService_name_only s hName st]
    cases reconcileCatalogService env b' s st with
    | mk r st₁ => cases r <;> simp [ih]

/-! ## Failure decomposition of the catalog walk -/

theorem reconcileServicesLoop_err {env : UpsertEnv} {br : BrokerObj} :
    ∀ {svcs : List Service} {st st' : KubeState} {e : String},
    reconcileServicesLoop env br svcs st = (.err e, st') →
    ∃ pre s rest st₁, svcs = pre ++ s :: rest ∧
      reconcileServicesLoop env br pre st = (.ok (), st₁) ∧
      reconcileCatalogService env br s st₁ = (.err e, st') := by
  intro svcs
  induction svcs with
  | nil => intro st st' e h; simp [reconcileServicesLoop] at h
  | cons s svcs ih =>
    intro st st' e h
    simp only [reconcileServicesLoop] at h
    cases hS : reconcileCatalogService env br s st with
    | mk r st₁ =>
      rw [hS] at h
      cases r with
      | ok u =>
        simp only at h
        obtain ⟨pre, s', rest, st₂, hSplit, hPre, hFail⟩ := ih h
        refine ⟨s :: pre, s', rest, st₂, by rw [hSplit]; rfl, ?_, hFail⟩
        simp only [reconcileServicesLoop, hS]
        exact hPre
      | err e' =>
        simp only [Prod.mk.injEq, GoRes.err.injEq] at h
        obtain ⟨rfl, rfl⟩ := h
        exact ⟨[], s, svcs, st, rfl, rfl, hS⟩
      | panics m => simp at h

/-! ## Claim theorems -/

/-- C1: every invocation of `ReconcileResource` that returns (on any exit
path: secret missing, secret fetch failure, validation failure, catalog
fetch failure, upsert failure, or success) writes the Ready status
condition to the broker exactly once, with status True exactly when the
invocation's final error value is nil and with a non-empty machine-readable
reason otherwise. -/
theorem ReconcileResource_terminal_condition (env : ReconcileEnv)
    (br : BrokerObj) (st : KubeState) (o : RROut)
    (hLen : (readyConds br.Status.Conditions).length ≤ 1)
    (h : ReconcileResource env br st = .done o) :
    o.conditionWrites = 1 ∧
    ∃ c, readyConds o.broker.Status.Conditions = [c] ∧
      (c.status = true ↔ o.finalErr = none) ∧ c.reason ≠ "" := by
  cases hSec : env.getSecret with
  | notFound msg =>
    simp only [ReconcileResource, hSec, RRResult.done.injEq] at h
    subst h
    exact ⟨rfl, buildCondition { reason := "CredentialsSecretNotAvailable", readyFlag := false }
      (some msg) br.Generation,
      readyConds_after_finishRR _ _ _ _ _ _ _ hLen,
      by simp [buildCondition, finishRR], by simp [buildCondition]⟩
  | apiError msg =>
    simp only [ReconcileResource, hSec, RRResult.done.injEq] at h
    subst h
    exact ⟨rfl, buildCondition { reason := "CredentialsSecretNotAvailable", readyFlag := false }
      (some msg) br.Generation,
      readyConds_after_finishRR _ _ _ _ _ _ _ hLen,
      by simp [buildCondition, finishRR], by simp [buildCondition]⟩
  | found secret =>
    cases hVal : validateCredentials secret with
    | some vErr =>
      simp only [ReconcileResource, hSec, hVal, RRResult.done.injEq] at h
      subst h
      exact ⟨rfl, buildCondition { reason := "SecretInvalid", readyFlag := false }
        (some vErr) br.Generation,
        readyConds_after_finishRR _ _ _ _ _ _ _ hLen,
        by simp [buildCondition, finishRR], by simp [buildCondition]⟩
    | none =>
      cases hCat : env.getCatalog with
      | fetchErr msg =>
        simp only [ReconcileResource, hSec, hVal, hCat, RRResult.done.injEq] at h
        subst h
        exact ⟨rfl, buildCondition { reason := "GetCatalogFailed", readyFlag := false }
          (some msg) br.Generation,
          readyConds_after_finishRR _ _ _ _ _ _ _ hLen,
          by simp [buildCondition, finishRR], by simp [buildCondition]⟩
      | ok catalog =>
        simp only [ReconcileResource, hSec, hVal, hCat] at h
        split at h
        · simp at h
        · rename_i e st' hW
          simp only [RRResult.done.injEq] at h
          subst h
          exact ⟨rfl, buildCondition { reason := "Unknown", readyFlag := false }
            (some e) br.Generation,
            readyConds_after_finishRR _ _ _ _ _ _ _ hLen,
            by simp [buildCondition, finishRR], by simp [buildCondition]⟩
        · rename_i u st' hW
          simp only [RRResult.done.injEq] at h
          subst h
          exact ⟨rfl, buildCondition { reason := "Unknown", readyFlag := true }
            none br.Generation,
            readyConds_after_finishRR _ _ _ _ _ _ _ hLen,
            by simp [buildCondition, finishRR], by simp [buildCondition]⟩

/-- A secret payload that, at the credentials key, does not decode to a
JSON object, or decodes to one lacking the username field or the password
field. -/
def invalidCredPayload (s : SecretObj) : Bool :=
  match alookup s.Data credentialsSecretKey with
  | some (.wellFormed (.obj kvs)) =>
    (alookup kvs usernameCredentialsKey).isNone ||
      (alookup kvs passwordCredentialsKey).isNone
  | _ => true

theorem validateCredentials_invalid (s : SecretObj)
    (h : invalidCredPayload s = true) : ∃ e, validateCredentials s = some e := by
  cases hV : validateCredentials s with
  | some e => exact ⟨e, rfl⟩
  | none =>
    exfalso
    unfold invalidCredPayload at h
    cases hD : alookup s.Data credentialsSecretKey with
    | none => simp [validateCredentials, unmarshalToMap, hD] at hV
    | some jt =>
      cases jt with
      | malformed raw => simp [validateCredentials, unmarshalToMap, hD] at hV
      | wellFormed v =>
        cases v with
        | str u => simp [validateCredentials, unmarshalToMap, hD] at hV
        | num n => simp [validateCredentials, unmarshalToMap, hD] at hV
        | bool b => simp [validateCredentials, unmarshalToMap, hD] at hV
        | null => simp [validateCredentials, unmarshalToMap, hD] at hV
        | arr es => simp [validateCredentials, unmarshalToMap, hD] at hV
        | obj kvs =>
          rw [hD] at h
          simp only [Bool.or_eq_true] at h
          simp only [validateCredentials, unmarshalToMap, hD] at hV
          cases hU : (alookup kvs usernameCredentialsKey).isNone with
          | true => rw [hU] at hV; simp at hV
          | false =>
            have hP : (alookup kvs passwordCredentialsKey).isNone = true := by
              rcases h with h | h
              · rw [hU] at h; exact absurd h (by simp)
              · exact h
            rw [hU, hP] at hV
            simp at hV

/-- C5: when the referenced secret is found but its payload at the
credentials key does not parse as a JSON object, or lacks the username or
the password field, `ReconcileResource` writes the Ready condition with
reason `SecretInvalid`, returns the validation error, and never calls
`GetCatalog`. -/
theorem ReconcileResource_invalid_credentials (env : ReconcileEnv)
    (br : BrokerObj) (st : KubeState) (secret : SecretObj) (o : RROut)
    (hSec : env.getSecret = .found secret)
    (hBad : invalidCredPayload secret = true)
    (hLen : (readyConds br.Status.Conditions).length ≤ 1)
    (h : ReconcileResource env br st = .done o) :
    ∃ e, validateCredentials secret = some e ∧ o.retErr = some e ∧
      o.getCatalogCalled = false ∧
      ∃ c, readyConds o.broker.Status.Conditions = [c] ∧
        c.reason = "SecretInvalid" ∧ c.status = false := by
  obtain ⟨e, hVal⟩ := validateCredentials_invalid secret hBad
  simp only [ReconcileResource, hSec, hVal, RRResult.done.injEq] at h
  subst h
  exact ⟨e, hVal, rfl, rfl, _,
    readyConds_after_finishRR _ _ _ _ _ _ _ hLen, rfl, rfl⟩

/-- C6: when the referenced secret is absent, `ReconcileResource` writes
the Ready condition with reason `CredentialsSecretNotAvailable` and
returns a 2-second requeue with a nil error; any other secret fetch
failure is returned to the caller. -/
theorem ReconcileResource_secret_fetch_failure :
    (∀ (env : ReconcileEnv) (br : BrokerObj) (st : KubeState) (msg : String) (o : RROut),
      env.getSecret = .notFound msg →
      ReconcileResource env br st = .done o →
      o.result.RequeueAfterSeconds = some 2 ∧ o.retErr = none ∧
      ((readyConds br.Status.Conditions).length ≤ 1 →
        ∃ c, readyConds o.broker.Status.Conditions = [c] ∧
          c.reason = "CredentialsSecretNotAvailable" ∧ c.status = false)) ∧
    (∀ (env : ReconcileEnv) (br : BrokerObj) (st : KubeState) (msg : String) (o : RROut),
      env.getSecret = .apiError msg →
      ReconcileResource env br st = .done o →
      o.retErr = some msg ∧ o.result.RequeueAfterSeconds = none ∧
      ((readyConds br.Status.Conditions).length ≤ 1 →
        ∃ c, readyConds o.broker.Status.Conditions = [c] ∧
          c.reason = "CredentialsSecretNotAvailable" ∧ c.status = false)) := by
  constructor
  · intro env br st msg o hSec h
    simp only [ReconcileResource, hSec, RRResult.done.injEq] at h
    subst h
    exact ⟨rfl, rfl, fun hLen =>
      ⟨_, readyConds_after_finishRR _ _ _ _ _ _ _ hLen, rfl, rfl⟩⟩
  · intro env br st msg o hSec h
    simp only [ReconcileResource, hSec, RRResult.done.injEq] at h
    subst h
    exact ⟨rfl, rfl, fun hLen =>
      ⟨_, readyConds_after_finishRR _ _ _ _ _ _ _ hLen, rfl, rfl⟩⟩

/-- C8: a fully successful invocation records the broker's generation in
`Status.ObservedGeneration` and the fetched secret's resource version in
`Status.CredentialsObservedVersion`, and leaves the Ready condition True
(error condition cleared). -/
theorem ReconcileResource_success_records (env : ReconcileEnv) (br : BrokerObj)
    (st : KubeState) (secret : SecretObj) (catalog : Catalog) (o : RROut)
    (hSec : env.getSecret = .found secret)
    (hVal : validateCredentials secret = none)
    (hCat : env.getCatalog = .ok catalog)
    (hLen : (readyConds br.Status.Conditions).length ≤ 1)
    (h : ReconcileResource env br st = .done o)
    (hOk : o.retErr = none) :
    o.broker.Status.ObservedGeneration = br.Generation ∧
    o.broker.Status.CredentialsObservedVersion = secret.ResourceVersion ∧
    o.finalErr = none ∧
    ∃ c, readyConds o.broker.Status.Conditions = [c] ∧
      c.status = true ∧ c.reason = "Ready" := by
  simp only [ReconcileResource, hSec, hVal, hCat] at h
  split at h
  · simp at h
  · rename_i e st' hW
    simp only [RRResult.done.injEq] at h
    subst h
    simp [finishRR] at hOk
  · rename_i u st' hW
    simp only [RRResult.done.injEq] at h
    subst h
    exact ⟨rfl, rfl, rfl, _,
      readyConds_after_finishRR _ _ _ _ _ _ _ hLen, rfl, rfl⟩

/-- C4: reconciling the same unchanged catalog twice produces the same
offering and plan object sets as reconciling it once — the second run
returns the exact state left by the first (same objects, specs, labels and
write log, so no new objects and no spurious writes). -/
theorem reconcileCatalog_idempotent (env : UpsertEnv) (br : BrokerObj)
    (catalog : Catalog) (st st' : KubeState)
    (hO : (catalog.Services.map (fun s => offeringKeyOf br.Name s.ID)).Nodup)
    (hP : ((catalog.Services.flatMap Service.Plans).map
      (fun p => planKeyOf br.Name p.ID)).Nodup)
    (h : reconcileCatalog env br catalog st = (.ok (), st')) :
    reconcileCatalog env br catalog st' = (.ok (), st') :=
  reconcileServicesLoop_noop (reconcileServicesLoop_ok_stable hO hP h)

/-- C3: the name of the offering object is the pure deterministic function
`offeringKeyOf` of (broker name, catalog service ID) and the name of the
plan object the pure deterministic function `planKeyOf` of (broker name,
catalog plan ID): a successful `reconcileCatalogService` stores the
objects exactly at those names regardless of the prior state and
environment, the names agree for any two brokers/catalog entries with the
same name and ID, and the multiset of derived names is invariant under
reordering of the catalog. -/
theorem derived_names_deterministic :
    (∀ (env : UpsertEnv) (br : BrokerObj) (svc : Service) (st st' : KubeState),
      reconcileCatalogService env br svc st = (.ok (), st') →
      (∃ v, alookup st'.offerings (offeringKeyOf br.Name svc.ID) = some v) ∧
      ∀ p ∈ svc.Plans, ∃ w, alookup st'.plans (planKeyOf br.Name p.ID) = some w) ∧
    (∀ (br₁ br₂ : BrokerObj) (svc₁ svc₂ : Service),
      br₁.Name = br₂.Name → svc₁.ID = svc₂.ID →
      offeringKeyOf br₁.Name svc₁.ID = offeringKeyOf br₂.Name svc₂.ID) ∧
    (∀ (br₁ br₂ : BrokerObj) (p₁ p₂ : Plan),
      br₁.Name = br₂.Name → p₁.ID = p₂.ID →
      planKeyOf br₁.Name p₁.ID = planKeyOf br₂.Name p₂.ID) ∧
    (∀ (br : BrokerObj) (cat₁ cat₂ : Catalog), cat₁.Services.Perm cat₂.Services →
      (cat₁.Services.map (fun s => offeringKeyOf br.Name s.ID)).Perm
        (cat₂.Services.map (fun s => offeringKeyOf br.Name s.ID)) ∧
      ((cat₁.Services.flatMap Service.Plans).map (fun p => planKeyOf br.Name p.ID)).Perm
        ((cat₂.Services.flatMap Service.Plans).map (fun p => planKeyOf br.Name p.ID))) := by
  refine ⟨?_, ?_, ?_, ?_⟩
  · intro env br svc st st' h
    exact reconcileCatalogService_ok_present h
  · intro br₁ br₂ svc₁ svc₂ hName hID
    rw [hName, hID]
  · intro br₁ br₂ p₁ p₂ hName hID
    rw [hName, hID]
  · intro br cat₁ cat₂ hPerm
    exact ⟨hPerm.map _, (hPerm.flatMap_right _).map _⟩

/-- Whether a decoded JSON value is a string. -/
def isStr : JsonVal → Bool
  | .str _ => true
  | _ => false

/-- C10: `toSpecServiceOffering` performs the unchecked type assertion
`u.(string)` on the metadata value at key `documentationUrl`; whenever
that value is present and not a string, the function panics instead of
returning an error. -/
theorem toSpecServiceOffering_panics_on_nonstring (svc : Service)
    (md : List (String × JsonVal)) (v : JsonVal)
    (hMd : svc.Metadata = some md)
    (hDoc : alookup md "documentationUrl" = some v)
    (hStr : isStr v = false) :
    toSpecServiceOffering svc =
      .panics "interface conversion: interface is not string" := by
  cases v with
  | str u => simp [isStr] at hStr
  | num n => simp [toSpecServiceOffering, hMd, hDoc]
  | bool b => simp [toSpecServiceOffering, hMd, hDoc]
  | null => simp [toSpecServiceOffering, hMd, hDoc]
  | arr es => simp [toSpecServiceOffering, hMd, hDoc]
  | obj fs => simp [toSpecServiceOffering, hMd, hDoc]

/-- C9: for a secret event in a namespace, the produced reconcile
requests are exactly the brokers (in that namespace) whose
credentials-secret reference names the secret: every such broker is
re-enqueued and no other broker is. -/
theorem secretToServiceBroker_exact (brokers : List BrokerObj)
    (secretName secretNamespace nm ns : String) :
    (⟨nm, ns⟩ : Request) ∈ secretToServiceBroker brokers false secretName secretNamespace ↔
    ∃ b ∈ brokers, b.Name = nm ∧ b.Namespace = ns ∧
      b.Namespace = secretNamespace ∧ b.Spec.CredentialsName = secretName := by
  simp only [secretToServiceBroker, if_neg (by simp : ¬(false = true)), List.mem_map,
    List.mem_filter, brokerReferencesSecret, Bool.and_eq_true, decide_eq_true_eq]
  constructor
  · rintro ⟨b, ⟨hMem, hNs, hName⟩, hReq⟩
    have hN : b.Name = nm := congrArg Request.Name hReq
    have hNS : b.Namespace = ns := congrArg Request.Namespace hReq
    exact ⟨b, hMem, hN, hNS, hNs, hName⟩
  · rintro ⟨b, hMem, hN, hNS, hNs, hName⟩
    exact ⟨b, ⟨hMem, hNs, hName⟩, by rw [← hN, ← hNS]⟩

/-- C2: when an upsert fails during the catalog walk, the walk stops at
the failing service (the remaining services are not processed — the final
state is produced by the successful prefix and the failing service alone),
`ReconcileResource` returns the error `failed to reconcile catalog:
<cause>`, and every offering and plan upserted for the services before the
failing one is still present, unchanged, in the state the failed run
leaves behind. -/
theorem ReconcileResource_partial_failure (env : ReconcileEnv) (br : BrokerObj)
    (st stFail : KubeState) (secret : SecretObj) (catalog : Catalog) (o : RROut)
    (e : String)
    (hSec : env.getSecret = .found secret)
    (hVal : validateCredentials secret = none)
    (hCat : env.getCatalog = .ok catalog)
    (hO : (catalog.Services.map (fun s => offeringKeyOf br.Name s.ID)).Nodup)
    (hP : ((catalog.Services.flatMap Service.Plans).map
      (fun p => planKeyOf br.Name p.ID)).Nodup)
    (hWalk : reconcileCatalog env.upserts br catalog st = (.err e, stFail))
    (h : ReconcileResource env br st = .done o) :
    o.retErr = some ("failed to reconcile catalog: " ++ e) ∧
    o.state = stFail ∧
    ∃ pre s rest st₁, catalog.Services = pre ++ s :: rest ∧
      reconcileServicesLoop env.upserts br pre st = (.ok (), st₁) ∧
      reconcileCatalogService env.upserts br s st₁ = (.err e, stFail) ∧
      ∀ s' ∈ pre,
        (∃ v, alookup st₁.offerings (offeringKeyOf br.Name s'.ID) = some v ∧
          alookup stFail.offerings (offeringKeyOf br.Name s'.ID) = some v) ∧
        ∀ p ∈ s'.Plans, ∃ w, alookup st₁.plans (planKeyOf br.Name p.ID) = some w ∧
          alookup stFail.plans (planKeyOf br.Name p.ID) = some w := by
  have hWalkMod : reconcileCatalog env.upserts
      { br with
        Status :=
          { br.Status with
            ObservedGeneration := br.Generation,
            CredentialsObservedVersion := secret.ResourceVersion } }
      catalog st = (.err e, stFail) := by
    have hName : ({ br with
        Status :=
          { br.Status with
            ObservedGeneration := br.Generation,
            CredentialsObservedVersion := secret.ResourceVersion } } : BrokerObj).Name =
        br.Name := rfl
    exact (reconcileServicesLoop_name_only hName catalog.Services st).trans hWalk
  simp only [ReconcileResource, hSec, hVal, hCat] at h
  split at h
  all_goals rename_i hW
  pick_goal 3
  · rename_i u st'
    have hC := hWalkMod.symm.trans hW
    exact absurd hC (by simp)
  pick_goal 2
  · rename_i e' st'
    have hC := hWalkMod.symm.trans hW
    simp only [Prod.mk.injEq, GoRes.err.injEq] at hC
    obtain ⟨rfl, rfl⟩ := hC
    simp only [RRResult.done.injEq] at h
    subst h
    refine ⟨rfl, rfl, ?_⟩
    obtain ⟨pre, s, rest, st₁, hSplit, hPre, hFail⟩ := reconcileServicesLoop_err hWalk
    refine ⟨pre, s, rest, st₁, hSplit, hPre, hFail, ?_⟩
    intro s' hs'
    rw [hSplit] at hO hP
    have hOapp : ((pre ++ s :: rest).map (fun q => offeringKeyOf br.Name q.ID)) =
        pre.map (fun q => offeringKeyOf br.Name q.ID) ++
          (s :: rest).map (fun q => offeringKeyOf br.Name q.ID) := by
      rw [List.map_append]
    have hPapp : (((pre ++ s :: rest).flatMap Service.Plans).map
        (fun p => planKeyOf br.Name p.ID)) =
        (pre.flatMap Service.Plans).map (fun p => planKeyOf br.Name p.ID) ++
          ((s :: rest).flatMap Service.Plans).map (fun p => planKeyOf br.Name p.ID) := by
      rw [List.flatMap_append, List.map_append]
    rw [hOapp] at hO
    rw [hPapp] at hP
    have hStable := reconcileServicesLoop_ok_stable
      (List.Nodup.of_append_left hO) (List.Nodup.of_append_left hP) hPre s' hs'
    obtain ⟨hOffPresent, hPlanPresent⟩ := serviceStable_present hStable
    have hFrame := reconcileCatalogService_frame hFail
    constructor
    · obtain ⟨v, hv⟩ := hOffPresent
      refine ⟨v, hv, ?_⟩
      rw [hFrame.1 _ ?_]
      · exact hv
      · intro hEq
        refine List.disjoint_of_nodup_append hO
          (List.mem_map_of_mem _ hs') (hEq ▸ ?_)
        exact List.mem_map_of_mem _ (List.mem_cons_self s rest)
    · intro p hp
      obtain ⟨w, hw⟩ := hPlanPresent p hp
      refine ⟨w, hw, ?_⟩
      rw [hFrame.2 _ ?_]
      · exact hw
      · intro q hq hEq
        refine List.disjoint_of_nodup_append hP
          (List.mem_map_of_mem _ (List.mem_flatMap.mpr ⟨s', hs', hp⟩)) (hEq ▸ ?_)
        refine List.mem_map_of_mem _ (List.mem_flatMap.mpr ⟨s, List.mem_cons_self s rest, hq⟩)
  · rename_i m st'
    have hC := hWalkMod.symm.trans hW
    exact absurd hC (by simp)

/-! ## Concrete fixtures for witnesses -/

/-- The spec's example schemas blob. -/
def wSchemas : ServicePlanSchemas :=
  { ServiceInstance :=
      { Create := { Parameters := some "\x7b\"create-param\":\"create-value\"\x7d" },
        Update := { Parameters := none } },
    ServiceBinding := { Create := { Parameters := none } } }

/-- The spec's example catalog plan. -/
def wPlan : Plan :=
  { ID := "broker-plan-guid", Name := "my-service-plan",
    Description := "service plan description",
    Free := true, Bindable := true, PlanUpdateable := true,
    Metadata := some [("foo", .str "bar")], Schemas := wSchemas }

/-- A second catalog plan. -/
def wPlanB : Plan := { wPlan with ID := "plan-b", Name := "plan-b" }

/-- A catalog service with one plan and a documentation URL. -/
def wSvc : Service :=
  { ID := "svc-1", Name := "my-service", Description := "service description",
    Tags := ["tag"], Requires := [],
    BrokerCatalogFeatures := { PlanUpdateable := true, Bindable := true },
    Metadata := some [("documentationUrl", .str "https://doc.example")],
    Plans := [wPlan] }

/-- A second catalog service. -/
def wSvcB : Service := { wSvc with ID := "svc-2", Plans := [wPlanB], Metadata := none }

/-- A third catalog service, with no plans. -/
def wSvcC : Service := { wSvc with ID := "svc-3", Plans := [], Metadata := none }

/-- A broker object. -/
def wBroker : BrokerObj :=
  { Name := "my-broker", Namespace := "cf", Generation := 3,
    Spec := { CredentialsName := "creds" },
    Status :=
      { ObservedGeneration := 0, CredentialsObservedVersion := "",
        Conditions := [] } }

/-- A valid credentials secret. -/
def wSecret : SecretObj :=
  { Name := "creds", Namespace := "cf", ResourceVersion := "v7",
    Data := [("credentials",
      .wellFormed (.obj [("username", .str "u"), ("password", .str "p")]))] }

/-- A credentials secret missing the password field. -/
def wBadSecret : SecretObj :=
  { wSecret with
    Data := [("credentials", .wellFormed (.obj [("username", .str "u")]))] }

/-- A two-service catalog. -/
def wCatalog : Catalog := { Services := [wSvc, wSvcB] }

/-- A three-service catalog. -/
def wCatalog3 : Catalog := { Services := [wSvc, wSvcB, wSvcC] }

/-- No injected upsert failures. -/
def wUpserts : UpsertEnv := { failErrs := [] }

/-- Fail the upsert of the second service's offering. -/
def wFailUpserts : UpsertEnv :=
  { failErrs := [(offeringKeyOf "my-broker" "svc-2", "boom")] }

/-- A fully healthy environment. -/
def wEnv : ReconcileEnv :=
  { getSecret := .found wSecret, getCatalog := .ok wCatalog, upserts := wUpserts }

/-- Environment whose second offering upsert fails. -/
def wFailEnv : ReconcileEnv :=
  { getSecret := .found wSecret, getCatalog := .ok wCatalog3,
    upserts := wFailUpserts }

/-- Environment with an invalid credentials secret. -/
def wBadEnv : ReconcileEnv :=
  { getSecret := .found wBadSecret, getCatalog := .ok wCatalog, upserts := wUpserts }

/-- Environment whose secret is absent. -/
def wNFEnv : ReconcileEnv :=
  { getSecret := .notFound "secrets not found", getCatalog := .ok wCatalog,
    upserts := wUpserts }

/-- The empty store. -/
def wSt0 : KubeState := { offerings := [], plans := [], writeLog := [] }

/-- The store after one successful walk of `wCatalog`. -/
def wSt1 : KubeState := (reconcileCatalog wUpserts wBroker wCatalog wSt0).2

/-- The store after one successful `reconcileCatalogService` of `wSvc`. -/
def wSvcSt : KubeState := (reconcileCatalogService wUpserts wBroker wSvc wSt0).2

/-- The store left behind by the failing walk of `wCatalog3`. -/
def wStFail : KubeState := (reconcileCatalog wFailUpserts wBroker wCatalog3 wSt0).2

/-- The cause surfaced by the failing walk of `wCatalog3`. -/
def wE : String := "failed to reconcile service offering \"svc-2\" : boom"

/-- A placeholder outcome used as the default of `rrOutD`. -/
def wDefaultOut : RROut :=
  { result := emptyCtrlResult, retErr := none, finalErr := none,
    broker := wBroker, state := wSt0, getCatalogCalled := false,
    conditionWrites := 0 }

/-- Projection of a completed reconciliation outcome, with a default for
the panic case. -/
def rrOutD (r : RRResult) (d : RROut) : RROut :=
  match r with
  | .done o => o
  | .panicked _ => d

/-- The outcome of the healthy run. -/
def wOkOut : RROut := rrOutD (ReconcileResource wEnv wBroker wSt0) wDefaultOut

/-- The outcome of the run with the invalid secret. -/
def wBadOut : RROut := rrOutD (ReconcileResource wBadEnv wBroker wSt0) wDefaultOut

/-- The outcome of the run with the absent secret. -/
def wNFOut : RROut := rrOutD (ReconcileResource wNFEnv wBroker wSt0) wDefaultOut

/-- The outcome of the run whose catalog walk fails. -/
def wFailOut : RROut := rrOutD (ReconcileResource wFailEnv wBroker wSt0) wDefaultOut

/-- An offering object carrying the broker back-reference label. -/
def wOffObj : OfferingObj :=
  { Labels := [(relServiceBrokerLabel, "my-broker")], Spec := emptyServiceOffering }

/-- The store after upserting the spec's example plan under `wOffObj`. -/
def wPlanSt : KubeState :=
  (reconcileCatalogPlan wUpserts (offeringKeyOf "my-broker" "svc-1") wOffObj wPlan wSt0).2

/-- A service whose metadata `documentationUrl` value is not a string. -/
def wBadSvc : Service := { wSvc with Metadata := some [("documentationUrl", .num 3)] }

/-! ## Witnesses -/

/-- Witness for C1: the healthy run writes exactly one Ready condition. -/
theorem ReconcileResource_terminal_condition_witness :
    (readyConds wBroker.Status.Conditions).length ≤ 1 ∧
    ReconcileResource wEnv wBroker wSt0 = .done wOkOut ∧
    (wOkOut.conditionWrites = 1 ∧
      ∃ c, readyConds wOkOut.broker.Status.Conditions = [c] ∧
        (c.status = true ↔ wOkOut.finalErr = none) ∧ c.reason ≠ "") :=
  ⟨by decide, by decide,
    ReconcileResource_terminal_condition wEnv wBroker wSt0 wOkOut (by decide) (by decide)⟩

/-- Witness for C2: with three services and the second offering upsert
failing, the run surfaces the wrapped cause and retains the first
service's objects. -/
theorem ReconcileResource_partial_failure_witness :
    reconcileCatalog wFailUpserts wBroker wCatalog3 wSt0 = (.err wE, wStFail) ∧
    ReconcileResource wFailEnv wBroker wSt0 = .done wFailOut ∧
    wFailOut.retErr = some ("failed to reconcile catalog: " ++ wE) ∧
    wFailOut.state = wStFail ∧
    (∃ pre s rest st₁, wCatalog3.Services = pre ++ s :: rest ∧
      reconcileServicesLoop wFailUpserts wBroker pre wSt0 = (.ok (), st₁) ∧
      reconcileCatalogService wFailUpserts wBroker s st₁ = (.err wE, wStFail) ∧
      ∀ s' ∈ pre,
        (∃ v, alookup st₁.offerings (offeringKeyOf wBroker.Name s'.ID) = some v ∧
          alookup wStFail.offerings (offeringKeyOf wBroker.Name s'.ID) = some v) ∧
        ∀ p ∈ s'.Plans, ∃ w, alookup st₁.plans (planKeyOf wBroker.Name p.ID) = some w ∧
          alookup wStFail.plans (planKeyOf wBroker.Name p.ID) = some w) := by
  have h := ReconcileResource_partial_failure wFailEnv wBroker wSt0 wStFail wSecret
    wCatalog3 wFailOut wE rfl (by decide) rfl (by decide) (by decide) (by decide)
    (by decide)
  exact ⟨by decide, by decide, h.1, h.2.1, h.2.2⟩

/-- Witness for C3: the names derived for the example service and plan. -/
theorem derived_names_deterministic_witness :
    reconcileCatalogService wUpserts wBroker wSvc wSt0 = (.ok (), wSvcSt) ∧
    (∃ v, alookup wSvcSt.offerings (offeringKeyOf wBroker.Name wSvc.ID) = some v) ∧
    ∀ p ∈ wSvc.Plans, ∃ w, alookup wSvcSt.plans (planKeyOf wBroker.Name p.ID) = some w := by
  have h := derived_names_deterministic.1 wUpserts wBroker wSvc wSt0 wSvcSt (by decide)
  exact ⟨by decide, h.1, h.2⟩

/-- Witness for C4: walking the two-service catalog twice returns the
state of the first walk unchanged. -/
theorem reconcileCatalog_idempotent_witness :
    (wCatalog.Services.map (fun s => offeringKeyOf wBroker.Name s.ID)).Nodup ∧
    ((wCatalog.Services.flatMap Service.Plans).map
      (fun p => planKeyOf wBroker.Name p.ID)).Nodup ∧
    reconcileCatalog wUpserts wBroker wCatalog wSt0 = (.ok (), wSt1) ∧
    reconcileCatalog wUpserts wBroker wCatalog wSt1 = (.ok (), wSt1) :=
  ⟨by decide, by decide, by decide,
    reconcileCatalog_idempotent wUpserts wBroker wCatalog wSt0 wSt1
      (by decide) (by decide) (by decide)⟩

/-- Witness for C5: the secret missing the password field yields the
`SecretInvalid` condition and no catalog fetch. -/
theorem ReconcileResource_invalid_credentials_witness :
    invalidCredPayload wBadSecret = true ∧
    ReconcileResource wBadEnv wBroker wSt0 = .done wBadOut ∧
    (∃ e, validateCredentials wBadSecret = some e ∧ wBadOut.retErr = some e ∧
      wBadOut.getCatalogCalled = false ∧
      ∃ c, readyConds wBadOut.broker.Status.Conditions = [c] ∧
        c.reason = "SecretInvalid" ∧ c.status = false) :=
  ⟨by decide, by decide,
    ReconcileResource_invalid_credentials wBadEnv wBroker wSt0 wBadSecret wBadOut
      rfl (by decide) (by decide) (by decide)⟩

/-- Witness for C6: the absent secret yields a 2-second requeue and a nil
returned error. -/
theorem ReconcileResource_secret_fetch_failure_witness :
    wNFEnv.getSecret = .notFound "secrets not found" ∧
    ReconcileResource wNFEnv wBroker wSt0 = .done wNFOut ∧
    wNFOut.result.RequeueAfterSeconds = some 2 ∧ wNFOut.retErr = none := by
  have h := ReconcileResource_secret_fetch_failure.1 wNFEnv wBroker wSt0
    "secrets not found" wNFOut rfl (by decide)
  exact ⟨rfl, by decide, h.1, h.2.1⟩

/-- Witness for C7: the spec's example plan round-trips: broker-catalog ID
`broker-plan-guid`, bindable features, and untouched schemas. -/
theorem reconcileCatalogPlan_content_witness :
    reconcileCatalogPlan wUpserts (offeringKeyOf "my-broker" "svc-1") wOffObj wPlan wSt0 =
      (.ok (), wPlanSt) ∧
    ∃ v, alookup wPlanSt.plans (planKeyFor wOffObj wPlan) = some v ∧
      v.Spec.BrokerCatalog.ID = "broker-plan-guid" ∧
      v.Spec.BrokerCatalog.Features.Bindable = true ∧
      v.Spec.BrokerCatalog.Features.PlanUpdateable = true ∧
      v.Spec.Name = "my-service-plan" ∧ v.Spec.Free = true ∧
      v.Spec.Description = "service plan description" ∧ v.Spec.Schemas = wSchemas ∧
      v.Spec.BrokerCatalog.Metadata = some (marshalMetadata wPlan.Metadata) :=
  ⟨by decide,
    @reconcileCatalogPlan_content wUpserts (offeringKeyOf "my-broker" "svc-1")
      wOffObj wPlan wSt0 wPlanSt (by decide)⟩

/-- Witness for C8: the healthy run records generation 3 and secret
version v7 and leaves the Ready condition True. -/
theorem ReconcileResource_success_records_witness :
    ReconcileResource wEnv wBroker wSt0 = .done wOkOut ∧ wOkOut.retErr = none ∧
    (wOkOut.broker.Status.ObservedGeneration = wBroker.Generation ∧
     wOkOut.broker.Status.CredentialsObservedVersion = wSecret.ResourceVersion ∧
     wOkOut.finalErr = none ∧
     ∃ c, readyConds wOkOut.broker.Status.Conditions = [c] ∧
       c.status = true ∧ c.reason = "Ready") :=
  ⟨by decide, by decide,
    ReconcileResource_success_records wEnv wBroker wSt0 wSecret wCatalog wOkOut
      rfl (by decide) rfl (by decide) (by decide) (by decide)⟩

/-- Witness for C9: the broker referencing the rotated secret is
re-enqueued. -/
theorem secretToServiceBroker_exact_witness :
    (⟨"my-broker", "cf"⟩ : Request) ∈
      secretToServiceBroker [wBroker] false "creds" "cf" :=
  (secretToServiceBroker_exact [wBroker] "creds" "cf" "my-broker" "cf").mpr
    ⟨wBroker, List.mem_cons_self wBroker [], rfl, rfl, rfl, rfl⟩

/-- Witness for C10: a numeric `documentationUrl` metadata value makes
`toSpecServiceOffering` panic. -/
theorem toSpecServiceOffering_panics_witness :
    wBadSvc.Metadata = some [("documentationUrl", .num 3)] ∧
    alookup [("documentationUrl", (.num 3 : JsonVal))] "documentationUrl" =
      some (.num 3) ∧
    isStr (.num 3) = false ∧
    toSpecServiceOffering wBadSvc =
      .panics "interface conversion: interface is not string" :=
  ⟨rfl, rfl, rfl,
    toSpecServiceOffering_panics_on_nonstring wBadSvc [("documentationUrl", .num 3)]
      (.num 3) rfl rfl rfl⟩

end BrokerReconcile
